import Mathlib

/-!
Verification of the notes repository of `note-keeper-24020-24042`
(`src/notes_backend/src/api/repositories/notes_repository.py`,
`src/notes_backend/src/api/models/schemas.py`,
`src/notes_backend/src/api/dependencies.py`).

The backing store of `InMemoryNotesRepository` is a Python `dict` from
id to `Note`.  We embed it as an association list that mirrors `dict`
semantics exactly: insertion order is preserved, assignment to an
existing key keeps its position, `pop` removes the entry.  The external
sources of nondeterminism used by the code — `uuid.uuid4().hex` and
`datetime.now(timezone.utc)` — are passed as explicit parameters
(a `String` id and a `Nat` instant).
-/

namespace NoteKeeper

/-- Embeds `Note` from `schemas.py`: id, title, content, optional tags,
and the two timestamps.  Timestamps (`datetime`) are embedded as `Nat`
instants; `tags: Optional[List[str]]` as `Option (List String)`. -/
structure Note where
  id : String
  title : String
  content : String
  tags : Option (List String)
  created_at : Nat
  updated_at : Nat
  deriving Repr, DecidableEq

/-- Embeds `NoteCreate` from `schemas.py`: title, content and optional
tags (defaulting to `None`, i.e. `none`). -/
structure NoteCreate where
  title : String
  content : String
  tags : Option (List String)
  deriving Repr, DecidableEq

/-- Embeds `NoteUpdate` from `schemas.py`: all three fields optional,
each defaulting to `None`. -/
structure NoteUpdate where
  title : Option String
  content : Option String
  tags : Option (List String)
  deriving Repr, DecidableEq

/-- A JSON field of a request body as seen on the wire: missing from the
object, an explicit `null`, or a value. -/
inductive JsonField (α : Type) where
  | absent
  | null
  | value (a : α)
  deriving Repr, DecidableEq

/-- Embeds how a pydantic `Optional[...] = Field(default=None, ...)`
field of `NoteUpdate` receives a wire field: a missing field takes the
default `None`, an explicit JSON `null` is accepted as `None` (the
annotation is `Optional`), and a value is kept.  Absence and explicit
`null` therefore produce the same attribute value `None`. -/
def parseOptionalField {α : Type} : JsonField α → Option α
  | JsonField.absent => none
  | JsonField.null => none
  | JsonField.value a => some a

/-- Embeds construction of a `NoteUpdate` from the three wire fields of
a request body, via pydantic parsing of each optional field. -/
def parseNoteUpdate (title : JsonField String) (content : JsonField String)
    (tags : JsonField (List String)) : NoteUpdate :=
  { title := parseOptionalField title
    content := parseOptionalField content
    tags := parseOptionalField tags }

/-- The backing store `self._store: Dict[str, Note]`, embedded as an
association list in insertion order (Python dicts preserve insertion
order). -/
abbrev Store : Type := List (String × Note)

/-- `dict.get(key)`: the value at the first (with unique keys: only)
occurrence of the key, or `none`. -/
def storeGet : Store → String → Option Note
  | [], _ => none
  | (k, v) :: rest, key => if k = key then some v else storeGet rest key

/-- `dict[key] = value`: overwrite in place if the key is present
(keeping its position, as Python dicts do), else append. -/
def storeSet : Store → String → Note → Store
  | [], key, v => [(key, v)]
  | (k, w) :: rest, key, v =>
    if k = key then (k, v) :: rest else (k, w) :: storeSet rest key v

/-- `dict.pop(key, None)` restricted to its effect on the store: remove
the entry with the key, if any. -/
def storePop : Store → String → Store
  | [], _ => []
  | (k, w) :: rest, key =>
    if k = key then rest else (k, w) :: storePop rest key

/-- `list(dict.keys())` in insertion order. -/
def storeKeys (s : Store) : List String :=
  s.map Prod.fst

/-- Embeds `InMemoryNotesRepository.list_notes`:
`sorted(self._store.values(), key=lambda n: n.updated_at, reverse=True)`.
Python `sorted` is a stable sort; with `reverse=True` it is the stable
descending sort by the key, which is `List.mergeSort` with the
comparison `b.updated_at <= a.updated_at`. -/
def list_notes (s : Store) : List Note :=
  (s.map Prod.snd).mergeSort (fun a b => decide (b.updated_at ≤ a.updated_at))

/-- Embeds `InMemoryNotesRepository.get_note`:
`return self._store.get(note_id)`. -/
def get_note (s : Store) (note_id : String) : Option Note :=
  storeGet s note_id

/-- Embeds `InMemoryNotesRepository.create_note`.  The readings of
`datetime.now(timezone.utc)` and `uuid.uuid4().hex` are the explicit
parameters `now` and `note_id`; the function builds the `Note` with both
timestamps equal to `now`, stores it under `note_id`, and returns the
new store together with the note. -/
def create_note (s : Store) (now : Nat) (note_id : String)
    (payload : NoteCreate) : Store × Note :=
  let note : Note :=
    { id := note_id
      title := payload.title
      content := payload.content
      tags := payload.tags
      created_at := now
      updated_at := now }
  (storeSet s note_id note, note)

/-- Embeds `InMemoryNotesRepository.update_note`.  `existing` is looked
up with `dict.get`; pydantic models are always truthy, so
`if not existing` fires exactly when the lookup returned `None`.  The
copy replaces each field whose payload value `is not None`, refreshes
`updated_at` to the reading `now` of `datetime.now(timezone.utc)`, and
re-stores under the same key. -/
def update_note (s : Store) (now : Nat) (note_id : String)
    (payload : NoteUpdate) : Store × Option Note :=
  match storeGet s note_id with
  | none => (s, none)
  | some existing =>
    let updated : Note :=
      { existing with
          title := match payload.title with
            | some t => t
            | none => existing.title
          content := match payload.content with
            | some c => c
            | none => existing.content
          tags := match payload.tags with
            | some ts => some ts
            | none => existing.tags
          updated_at := now }
    (storeSet s note_id updated, some updated)

/-- Embeds `InMemoryNotesRepository.delete_note`:
`return self._store.pop(note_id, None) is not None`. -/
def delete_note (s : Store) (note_id : String) : Store × Bool :=
  match storeGet s note_id with
  | none => (s, false)
  | some _ => (storePop s note_id, true)

/-- Embeds `InMemoryNotesRepository.__init__`: the backing store starts
empty. -/
def initStore : Store := []

/-- Embeds `get_notes_repository` from `dependencies.py`: every request
is provided a freshly constructed `InMemoryNotesRepository()`, whose
store is `initStore`, independently of anything earlier requests did. -/
def get_notes_repository : Store := initStore

/-- One repository call, as issued by a handler, with the clock and uuid
readings it observes. -/
inductive Op where
  | createOp (now : Nat) (note_id : String) (payload : NoteCreate)
  | updateOp (now : Nat) (note_id : String) (payload : NoteUpdate)
  | deleteOp (note_id : String)
  | getOp (note_id : String)
  | listOp
  deriving Repr

/-- The store after one repository call. -/
def step (s : Store) : Op → Store
  | Op.createOp now note_id payload => (create_note s now note_id payload).1
  | Op.updateOp now note_id payload => (update_note s now note_id payload).1
  | Op.deleteOp note_id => (delete_note s note_id).1
  | Op.getOp _ => s
  | Op.listOp => s

/-- The store reached from `s` by a sequence of repository calls. -/
def run (s : Store) (ops : List Op) : Store :=
  ops.foldl step s

/-- The clock reading an operation observes, if it observes one. -/
def opTime : Op → Option Nat
  | Op.createOp now _ _ => some now
  | Op.updateOp now _ _ => some now
  | _ => none

/-- The clock readings along the trace are nondecreasing, starting no
earlier than `t`. -/
def chronOK : Nat → List Op → Bool
  | _, [] => true
  | t, op :: rest =>
    match opTime op with
    | some now => decide (t ≤ now) && chronOK now rest
    | none => chronOK t rest

/-! ### Lemmas about the store operations -/

theorem storeGet_set_self (s : Store) (k : String) (v : Note) :
    storeGet (storeSet s k v) k = some v := by
  induction s with
  | nil => simp [storeSet, storeGet]
  | cons kv rest ih =>
    obtain ⟨k₁, w⟩ := kv
    by_cases h : k₁ = k
    · simp [storeSet, storeGet, h]
    · simp [storeSet, storeGet, h, ih]

theorem storeKeys_nil : storeKeys [] = [] := rfl

theorem storeKeys_cons (k : String) (v : Note) (s : Store) :
    storeKeys ((k, v) :: s) = k :: storeKeys s := rfl

theorem storeGet_eq_none_of_not_mem_keys (s : Store) (k : String)
    (h : k ∉ storeKeys s) : storeGet s k = none := by
  induction s with
  | nil => simp [storeGet]
  | cons kv rest ih =>
    obtain ⟨k₁, w⟩ := kv
    rw [storeKeys_cons, List.mem_cons] at h
    push_neg at h
    simp [storeGet, Ne.symm h.1, ih h.2]

theorem mem_keys_of_storeGet_eq_some (s : Store) (k : String) (v : Note)
    (h : storeGet s k = some v) : k ∈ storeKeys s := by
  induction s with
  | nil => simp [storeGet] at h
  | cons kv rest ih =>
    obtain ⟨k₁, w⟩ := kv
    rw [storeKeys_cons, List.mem_cons]
    by_cases hk : k₁ = k
    · exact Or.inl hk.symm
    · simp only [storeGet, hk, if_false] at h
      exact Or.inr (ih h)

theorem mem_of_mem_storeSet (s : Store) (k : String) (v : Note)
    (kv : String × Note) (h : kv ∈ storeSet s k v) :
    kv = (k, v) ∨ kv ∈ s := by
  induction s with
  | nil => simpa [storeSet] using h
  | cons hd rest ih =>
    obtain ⟨k₁, w⟩ := hd
    by_cases hk : k₁ = k
    · subst hk
      rw [show storeSet ((k₁, w) :: rest) k₁ v = (k₁, v) :: rest from by
        simp [storeSet], List.mem_cons] at h
      rcases h with h | h
      · exact Or.inl h
      · exact Or.inr (List.mem_cons_of_mem _ h)
    · rw [show storeSet ((k₁, w) :: rest) k v = (k₁, w) :: storeSet rest k v from by
        simp [storeSet, hk], List.mem_cons] at h
      rcases h with h | h
      · exact Or.inr (List.mem_cons.mpr (Or.inl h))
      · rcases ih h with h | h
        · exact Or.inl h
        · exact Or.inr (List.mem_cons_of_mem _ h)

theorem mem_keys_storeSet (s : Store) (k : String) (v : Note)
    (a : String) (h : a ∈ storeKeys (storeSet s k v)) :
    a ∈ storeKeys s ∨ a = k := by
  obtain ⟨kv, hmem, hfst⟩ := List.mem_map.mp h
  rcases mem_of_mem_storeSet s k v kv hmem with h | h
  · subst h
    exact Or.inr hfst.symm
  · exact Or.inl (List.mem_map.mpr ⟨kv, h, hfst⟩)

theorem nodup_keys_storeSet (s : Store) (k : String) (v : Note)
    (h : (storeKeys s).Nodup) : (storeKeys (storeSet s k v)).Nodup := by
  induction s with
  | nil => simp [storeSet, storeKeys]
  | cons hd rest ih =>
    obtain ⟨k₁, w⟩ := hd
    rw [storeKeys_cons, List.nodup_cons] at h
    by_cases hk : k₁ = k
    · subst hk
      rw [show storeSet ((k₁, w) :: rest) k₁ v = (k₁, v) :: rest from by
        simp [storeSet]]
      rw [storeKeys_cons, List.nodup_cons]
      exact h
    · rw [show storeSet ((k₁, w) :: rest) k v = (k₁, w) :: storeSet rest k v from by
        simp [storeSet, hk]]
      rw [storeKeys_cons, List.nodup_cons]
      refine ⟨?_, ih h.2⟩
      intro hmem
      rcases mem_keys_storeSet rest k v k₁ hmem with hm | hm
      · exact h.1 hm
      · exact hk hm

theorem storePop_sublist (s : Store) (k : String) :
    (storePop s k).Sublist s := by
  induction s with
  | nil => simp [storePop]
  | cons hd rest ih =>
    obtain ⟨k₁, w⟩ := hd
    by_cases hk : k₁ = k
    · rw [show storePop ((k₁, w) :: rest) k = rest from by simp [storePop, hk]]
      exact List.sublist_cons_self (k₁, w) rest
    · rw [show storePop ((k₁, w) :: rest) k = (k₁, w) :: storePop rest k from by
        simp [storePop, hk]]
      exact List.Sublist.cons₂ (k₁, w) ih

theorem mem_of_mem_storePop (s : Store) (k : String) (kv : String × Note)
    (h : kv ∈ storePop s k) : kv ∈ s :=
  (storePop_sublist s k).mem h

theorem nodup_keys_storePop (s : Store) (k : String)
    (h : (storeKeys s).Nodup) : (storeKeys (storePop s k)).Nodup :=
  ((storePop_sublist s k).map Prod.fst).nodup h

theorem storeGet_storePop_self (s : Store) (k : String)
    (h : (storeKeys s).Nodup) : storeGet (storePop s k) k = none := by
  induction s with
  | nil => simp [storePop, storeGet]
  | cons hd rest ih =>
    obtain ⟨k₁, w⟩ := hd
    simp only [storeKeys, List.map_cons, List.nodup_cons] at h
    by_cases hk : k₁ = k
    · subst hk
      simp only [storePop, if_pos rfl]
      exact storeGet_eq_none_of_not_mem_keys rest k₁ h.1
    · simp [storePop, storeGet, hk, ih h.2]

theorem storeGet_of_mem_nodup (s : Store) (kv : String × Note)
    (hnd : (storeKeys s).Nodup) (h : kv ∈ s) :
    storeGet s kv.1 = some kv.2 := by
  induction s with
  | nil => simp at h
  | cons hd rest ih =>
    obtain ⟨k₁, w⟩ := hd
    simp only [storeKeys, List.map_cons, List.nodup_cons] at hnd
    rcases List.mem_cons.mp h with h | h
    · subst h
      simp [storeGet]
    · have hk : k₁ ≠ kv.1 := by
        intro hk
        exact hnd.1 (hk ▸ List.mem_map.mpr ⟨kv, h, rfl⟩)
      simp [storeGet, hk, ih hnd.2 h]

theorem not_mem_keys_of_storeGet_eq_none (s : Store) (k : String)
    (h : storeGet s k = none) : k ∉ storeKeys s := by
  induction s with
  | nil => simp [storeKeys]
  | cons hd rest ih =>
    obtain ⟨k₁, w⟩ := hd
    rw [storeKeys_cons, List.mem_cons]
    by_cases hk : k₁ = k
    · simp [storeGet, hk] at h
    · simp only [storeGet, hk, if_false] at h
      push_neg
      exact ⟨fun he => hk he.symm, ih h⟩

/-! ### The claims -/

/-- C1: `update_note` performs a field-level merge: for every stored
note and every `NoteUpdate` payload, each of title/content/tags for
which the payload provides a value (including an explicitly empty tags
sequence, via the `∀ ts` conjunct at `ts = []`) replaces the stored
value, and each field the payload does not provide retains its prior
stored value. -/
theorem update_note_field_merge (s : Store) (now : Nat) (note_id : String)
    (p : NoteUpdate) (existing : Note)
    (h : get_note s note_id = some existing) :
    ∃ r : Note,
      (update_note s now note_id p).2 = some r ∧
      get_note (update_note s now note_id p).1 note_id = some r ∧
      (∀ t, p.title = some t → r.title = t) ∧
      (p.title = none → r.title = existing.title) ∧
      (∀ c, p.content = some c → r.content = c) ∧
      (p.content = none → r.content = existing.content) ∧
      (∀ ts, p.tags = some ts → r.tags = some ts) ∧
      (p.tags = none → r.tags = existing.tags) := by
  rw [get_note] at h
  refine ⟨{ existing with
      title := match p.title with | some t => t | none => existing.title
      content := match p.content with | some c => c | none => existing.content
      tags := match p.tags with | some ts => some ts | none => existing.tags
      updated_at := now }, ?_, ?_, ?_, ?_, ?_, ?_, ?_, ?_⟩
  · simp [update_note, h]
  · rw [get_note, update_note, h]
    exact storeGet_set_self ..
  · intro t ht
    simp [update_note, h, ht]
  · intro ht
    simp [update_note, h, ht]
  · intro c hc
    simp [update_note, h, hc]
  · intro hc
    simp [update_note, h, hc]
  · intro ts hts
    simp [update_note, h, hts]
  · intro hts
    simp [update_note, h, hts]

/-- C1 witness: a concrete store, a payload providing only a new title,
evaluated through the theorem. -/
theorem update_note_field_merge_witness :
    (get_note [("n1", ⟨"n1", "old", "body", some ["a"], 0, 0⟩)] "n1" =
      some ⟨"n1", "old", "body", some ["a"], 0, 0⟩) ∧
    (∃ r : Note,
      (update_note [("n1", ⟨"n1", "old", "body", some ["a"], 0, 0⟩)] 5 "n1"
        ⟨some "X", none, none⟩).2 = some r ∧
      get_note (update_note [("n1", ⟨"n1", "old", "body", some ["a"], 0, 0⟩)] 5 "n1"
        ⟨some "X", none, none⟩).1 "n1" = some r ∧
      (∀ t, (⟨some "X", none, none⟩ : NoteUpdate).title = some t → r.title = t) ∧
      ((⟨some "X", none, none⟩ : NoteUpdate).title = none →
        r.title = Note.title ⟨"n1", "old", "body", some ["a"], 0, 0⟩) ∧
      (∀ c, (⟨some "X", none, none⟩ : NoteUpdate).content = some c → r.content = c) ∧
      ((⟨some "X", none, none⟩ : NoteUpdate).content = none →
        r.content = Note.content ⟨"n1", "old", "body", some ["a"], 0, 0⟩) ∧
      (∀ ts, (⟨some "X", none, none⟩ : NoteUpdate).tags = some ts → r.tags = some ts) ∧
      ((⟨some "X", none, none⟩ : NoteUpdate).tags = none →
        r.tags = Note.tags ⟨"n1", "old", "body", some ["a"], 0, 0⟩)) :=
  ⟨by decide,
    update_note_field_merge [("n1", ⟨"n1", "old", "body", some ["a"], 0, 0⟩)] 5 "n1"
      ⟨some "X", none, none⟩ ⟨"n1", "old", "body", some ["a"], 0, 0⟩ (by decide)⟩

/-- C2: for every valid `NoteCreate` payload, `create_note` succeeds
(it is total and returns a `Note`) and returns a note whose id is the
freshly generated non-empty id (not colliding with any stored key — the
`uuid4().hex` freshness and non-emptiness are the two hypotheses),
whose `created_at` equals its `updated_at` (both the current instant),
and whose title, content and tags equal the payload fields (tags absent
when the payload did not supply them, since `tags = payload.tags`). -/
theorem create_note_spec (s : Store) (now : Nat) (note_id : String)
    (p : NoteCreate) (hfresh : get_note s note_id = none)
    (hne : note_id ≠ "") :
    (create_note s now note_id p).2.id = note_id ∧
    (create_note s now note_id p).2.id ≠ "" ∧
    (create_note s now note_id p).2.id ∉ storeKeys s ∧
    (create_note s now note_id p).2.created_at = (create_note s now note_id p).2.updated_at ∧
    (create_note s now note_id p).2.created_at = now ∧
    (create_note s now note_id p).2.title = p.title ∧
    (create_note s now note_id p).2.content = p.content ∧
    (create_note s now note_id p).2.tags = p.tags ∧
    get_note (create_note s now note_id p).1 note_id =
      some (create_note s now note_id p).2 := by
  refine ⟨rfl, hne, ?_, rfl, rfl, rfl, rfl, rfl, ?_⟩
  · exact not_mem_keys_of_storeGet_eq_none s note_id hfresh
  · rw [get_note, create_note]
    exact storeGet_set_self ..

/-- C2 witness: creating a note in the empty store. -/
theorem create_note_spec_witness :
    (get_note [] "id1" = none ∧ "id1" ≠ "") ∧
    ((create_note [] 3 "id1" ⟨"t", "c", none⟩).2.id = "id1" ∧
     (create_note [] 3 "id1" ⟨"t", "c", none⟩).2.id ≠ "" ∧
     (create_note [] 3 "id1" ⟨"t", "c", none⟩).2.id ∉ storeKeys [] ∧
     (create_note [] 3 "id1" ⟨"t", "c", none⟩).2.created_at =
       (create_note [] 3 "id1" ⟨"t", "c", none⟩).2.updated_at ∧
     (create_note [] 3 "id1" ⟨"t", "c", none⟩).2.created_at = 3 ∧
     (create_note [] 3 "id1" ⟨"t", "c", none⟩).2.title = NoteCreate.title ⟨"t", "c", none⟩ ∧
     (create_note [] 3 "id1" ⟨"t", "c", none⟩).2.content = NoteCreate.content ⟨"t", "c", none⟩ ∧
     (create_note [] 3 "id1" ⟨"t", "c", none⟩).2.tags = NoteCreate.tags ⟨"t", "c", none⟩ ∧
     get_note (create_note [] 3 "id1" ⟨"t", "c", none⟩).1 "id1" =
       some (create_note [] 3 "id1" ⟨"t", "c", none⟩).2) :=
  ⟨⟨by decide, by decide⟩,
    create_note_spec [] 3 "id1" ⟨"t", "c", none⟩ (by decide) (by decide)⟩

/-- C3: for every existing note id, `update_note` preserves the note's
id and `created_at` and refreshes `updated_at` to the current instant;
with all payload fields absent the result is the previously stored note
with only `updated_at` refreshed, and under a nondecreasing clock the
new `updated_at` is `≥` the previous one. -/
theorem update_note_frame (s : Store) (now : Nat) (note_id : String)
    (p : NoteUpdate) (existing : Note)
    (h : get_note s note_id = some existing)
    (hclock : existing.updated_at ≤ now) :
    ∃ r : Note,
      (update_note s now note_id p).2 = some r ∧
      r.id = existing.id ∧
      r.created_at = existing.created_at ∧
      r.updated_at = now ∧
      existing.updated_at ≤ r.updated_at ∧
      (p.title = none → p.content = none → p.tags = none →
        r = { existing with updated_at := now }) := by
  rw [get_note] at h
  refine ⟨{ existing with
      title := match p.title with | some t => t | none => existing.title
      content := match p.content with | some c => c | none => existing.content
      tags := match p.tags with | some ts => some ts | none => existing.tags
      updated_at := now }, ?_, ?_, ?_, ?_, ?_, ?_⟩
  · simp [update_note, h]
  · simp
  · simp
  · simp
  · simpa using hclock
  · intro ht hc hts
    simp [ht, hc, hts]

/-- C3 witness: the empty update on a concrete stored note. -/
theorem update_note_frame_witness :
    (get_note [("n1", ⟨"n1", "t", "c", none, 1, 2⟩)] "n1" =
      some ⟨"n1", "t", "c", none, 1, 2⟩ ∧
     Note.updated_at ⟨"n1", "t", "c", none, 1, 2⟩ ≤ 7) ∧
    (∃ r : Note,
      (update_note [("n1", ⟨"n1", "t", "c", none, 1, 2⟩)] 7 "n1"
        ⟨none, none, none⟩).2 = some r ∧
      r.id = Note.id ⟨"n1", "t", "c", none, 1, 2⟩ ∧
      r.created_at = Note.created_at ⟨"n1", "t", "c", none, 1, 2⟩ ∧
      r.updated_at = 7 ∧
      Note.updated_at ⟨"n1", "t", "c", none, 1, 2⟩ ≤ r.updated_at ∧
      ((⟨none, none, none⟩ : NoteUpdate).title = none →
       (⟨none, none, none⟩ : NoteUpdate).content = none →
       (⟨none, none, none⟩ : NoteUpdate).tags = none →
        r = { (⟨"n1", "t", "c", none, 1, 2⟩ : Note) with updated_at := 7 })) :=
  ⟨⟨by decide, by decide⟩,
    update_note_frame [("n1", ⟨"n1", "t", "c", none, 1, 2⟩)] 7 "n1"
      ⟨none, none, none⟩ ⟨"n1", "t", "c", none, 1, 2⟩ (by decide) (by decide)⟩

/-- C7: the operations are total Lean functions (no exception channel in
their types); a missing id is surfaced as an absent result from
`update_note` and `false` from `delete_note`, and on that error path
both leave the store completely unchanged. -/
theorem not_found_never_throws (s : Store) (now : Nat) (note_id : String)
    (p : NoteUpdate) (h : get_note s note_id = none) :
    update_note s now note_id p = (s, none) ∧
    delete_note s note_id = (s, false) := by
  rw [get_note] at h
  exact ⟨by simp [update_note, h], by simp [delete_note, h]⟩

/-- C7 witness: updating and deleting a missing id on a concrete store. -/
theorem not_found_never_throws_witness :
    get_note [("n1", ⟨"n1", "t", "c", none, 0, 0⟩)] "nope" = none ∧
    (update_note [("n1", ⟨"n1", "t", "c", none, 0, 0⟩)] 9 "nope" ⟨some "X", none, none⟩ =
      ([("n1", ⟨"n1", "t", "c", none, 0, 0⟩)], none) ∧
     delete_note [("n1", ⟨"n1", "t", "c", none, 0, 0⟩)] "nope" =
      ([("n1", ⟨"n1", "t", "c", none, 0, 0⟩)], false)) :=
  ⟨by decide,
    not_found_never_throws [("n1", ⟨"n1", "t", "c", none, 0, 0⟩)] 9 "nope"
      ⟨some "X", none, none⟩ (by decide)⟩

/-- C9: the dependency provider yields a repository whose backing store
is freshly constructed and empty: `list_notes` on it returns the empty
list and no id (in particular none created during an earlier request)
is visible. -/
theorem get_notes_repository_fresh :
    list_notes get_notes_repository = [] ∧
    ∀ note_id : String, get_note get_notes_repository note_id = none := by
  constructor
  · simp [list_notes, get_notes_repository, initStore]
  · intro note_id
    rfl

/-- C4: `delete_note` returns `true` iff a live note with the id was in
the store, removes it (a subsequent `get_note` is absent), and a second
`delete_note` on the same id returns `false`; deleting a nonexistent id
is not an error (it returns `false`, by the same iff).  The Nodup
hypothesis is the `dict` key-uniqueness of the backing store (C10). -/
theorem delete_note_spec (s : Store) (note_id : String)
    (hnd : (storeKeys s).Nodup) :
    ((delete_note s note_id).2 = true ↔ (get_note s note_id).isSome = true) ∧
    get_note (delete_note s note_id).1 note_id = none ∧
    (delete_note (delete_note s note_id).1 note_id).2 = false := by
  cases hg : storeGet s note_id with
  | none =>
    refine ⟨by simp [delete_note, get_note, hg], ?_, ?_⟩
    · simp [delete_note, get_note, hg]
    · simp [delete_note, get_note, hg]
  | some v =>
    have hpop : storeGet (storePop s note_id) note_id = none :=
      storeGet_storePop_self s note_id hnd
    refine ⟨by simp [delete_note, get_note, hg], ?_, ?_⟩
    · simpa [delete_note, get_note, hg] using hpop
    · simp [delete_note, hg, hpop]

/-- C4 witness: deleting a present id from a concrete one-note store. -/
theorem delete_note_spec_witness :
    (storeKeys [("n1", ⟨"n1", "t", "c", none, 0, 0⟩)]).Nodup ∧
    (((delete_note [("n1", ⟨"n1", "t", "c", none, 0, 0⟩)] "n1").2 = true ↔
        (get_note [("n1", ⟨"n1", "t", "c", none, 0, 0⟩)] "n1").isSome = true) ∧
      get_note (delete_note [("n1", ⟨"n1", "t", "c", none, 0, 0⟩)] "n1").1 "n1" = none ∧
      (delete_note (delete_note [("n1", ⟨"n1", "t", "c", none, 0, 0⟩)] "n1").1 "n1").2 =
        false) :=
  ⟨by decide, delete_note_spec [("n1", ⟨"n1", "t", "c", none, 0, 0⟩)] "n1" (by decide)⟩

/-- C5: `list_notes` returns exactly the stored notes (a permutation of
the store's values) sorted by `updated_at` descending: every pair in
result order, in particular every adjacent pair `(a, b)`, satisfies
`a.updated_at ≥ b.updated_at`.  `list_notes` is a pure function of the
store, so the order of ties is deterministic within a process run. -/
theorem list_notes_sorted_desc (s : Store) :
    (list_notes s).Perm (s.map Prod.snd) ∧
    (list_notes s).Pairwise (fun a b => b.updated_at ≤ a.updated_at) := by
  constructor
  · exact List.mergeSort_perm _ _
  · have h : (list_notes s).Pairwise
        (fun a b : Note => decide (b.updated_at ≤ a.updated_at) = true) := by
      apply List.sorted_mergeSort
      · intro a b c hab hbc
        simp only [decide_eq_true_eq] at hab hbc ⊢
        exact le_trans hbc hab
      · intro a b
        simpa using Nat.le_total b.updated_at a.updated_at
    exact h.imp fun hab => by simpa using hab

/-- C8 counterexample: the schema does NOT distinguish a field carrying
an explicit JSON `null` from an absent field — both parse to the same
`NoteUpdate` — and an explicit `null` for `tags` is treated as "leave
unchanged": updating a note whose tags are `["a"]` with an explicit
`tags: null` leaves the tags `["a"]` instead of applying the null as a
replacement. -/
theorem noteupdate_null_conflated_with_absent :
    parseNoteUpdate JsonField.absent JsonField.absent JsonField.null =
      parseNoteUpdate JsonField.absent JsonField.absent JsonField.absent ∧
    Option.map Note.tags
      (update_note [("n1", ⟨"n1", "t", "c", some ["a"], 0, 0⟩)] 1 "n1"
        (parseNoteUpdate JsonField.absent JsonField.absent JsonField.null)).2 =
      some (some ["a"]) ∧
    Option.map Note.tags
      (update_note [("n1", ⟨"n1", "t", "c", some ["a"], 0, 0⟩)] 1 "n1"
        (parseNoteUpdate JsonField.absent JsonField.absent JsonField.null)).2 ≠
      some none := by
  decide

/-- C8 amended: a `NoteUpdate` wire payload distinguishes a field that
is absent or explicitly `null` (both parse to `None` and leave the
stored value unchanged) from a field carrying an explicit value: an
explicitly supplied value — including the explicitly empty tags
sequence `[]` — is applied as a replacement, while absence and explicit
`null` alike retain the stored value. -/
theorem noteupdate_absence_vs_value (s : Store) (now : Nat)
    (note_id : String) (jt jc : JsonField String)
    (jts : JsonField (List String)) (existing : Note)
    (h : get_note s note_id = some existing) :
    ∃ r : Note,
      (update_note s now note_id (parseNoteUpdate jt jc jts)).2 = some r ∧
      ((jt = JsonField.absent ∨ jt = JsonField.null) → r.title = existing.title) ∧
      (∀ v, jt = JsonField.value v → r.title = v) ∧
      ((jc = JsonField.absent ∨ jc = JsonField.null) → r.content = existing.content) ∧
      (∀ v, jc = JsonField.value v → r.content = v) ∧
      ((jts = JsonField.absent ∨ jts = JsonField.null) → r.tags = existing.tags) ∧
      (∀ vs, jts = JsonField.value vs → r.tags = some vs) := by
  rw [get_note] at h
  refine ⟨{ existing with
      title := match parseOptionalField jt with | some t => t | none => existing.title
      content := match parseOptionalField jc with | some c => c | none => existing.content
      tags := match parseOptionalField jts with | some ts => some ts | none => existing.tags
      updated_at := now }, ?_, ?_, ?_, ?_, ?_, ?_, ?_⟩
  · simp [update_note, h, parseNoteUpdate]
  · rintro (rfl | rfl) <;> simp [parseOptionalField]
  · rintro v rfl
    simp [parseOptionalField]
  · rintro (rfl | rfl) <;> simp [parseOptionalField]
  · rintro v rfl
    simp [parseOptionalField]
  · rintro (rfl | rfl) <;> simp [parseOptionalField]
  · rintro vs rfl
    simp [parseOptionalField]

/-- C8 witness: a concrete note updated with an absent title, an
explicit content value, and the explicitly empty tags sequence. -/
theorem noteupdate_absence_vs_value_witness :
    get_note [("n1", ⟨"n1", "t", "c", some ["a"], 0, 0⟩)] "n1" =
      some ⟨"n1", "t", "c", some ["a"], 0, 0⟩ ∧
    (∃ r : Note,
      (update_note [("n1", ⟨"n1", "t", "c", some ["a"], 0, 0⟩)] 4 "n1"
        (parseNoteUpdate JsonField.absent (JsonField.value "c2")
          (JsonField.value []))).2 = some r ∧
      (((JsonField.absent : JsonField String) = JsonField.absent ∨
        (JsonField.absent : JsonField String) = JsonField.null) →
        r.title = Note.title ⟨"n1", "t", "c", some ["a"], 0, 0⟩) ∧
      (∀ v, (JsonField.absent : JsonField String) = JsonField.value v → r.title = v) ∧
      ((JsonField.value "c2" = JsonField.absent ∨
        JsonField.value "c2" = JsonField.null) →
        r.content = Note.content ⟨"n1", "t", "c", some ["a"], 0, 0⟩) ∧
      (∀ v, JsonField.value "c2" = JsonField.value v → r.content = v) ∧
      ((JsonField.value ([] : List String) = JsonField.absent ∨
        JsonField.value ([] : List String) = JsonField.null) →
        r.tags = Note.tags ⟨"n1", "t", "c", some ["a"], 0, 0⟩) ∧
      (∀ vs, JsonField.value ([] : List String) = JsonField.value vs →
        r.tags = some vs)) :=
  ⟨by decide,
    noteupdate_absence_vs_value [("n1", ⟨"n1", "t", "c", some ["a"], 0, 0⟩)] 4 "n1"
      JsonField.absent (JsonField.value "c2") (JsonField.value [])
      ⟨"n1", "t", "c", some ["a"], 0, 0⟩ (by decide)⟩

theorem mem_of_storeGet_eq_some (s : Store) (k : String) (v : Note)
    (h : storeGet s k = some v) : (k, v) ∈ s := by
  induction s with
  | nil => simp [storeGet] at h
  | cons hd rest ih =>
    obtain ⟨k₁, w⟩ := hd
    by_cases hk : k₁ = k
    · subst hk
      rw [show storeGet ((k₁, w) :: rest) k₁ = some w from by simp [storeGet],
        Option.some.injEq] at h
      subst h
      exact List.mem_cons_self ..
    · simp only [storeGet, hk, if_false] at h
      exact List.mem_cons_of_mem _ (ih h)

/-- The clock bound after one operation: its reading if it observed the
clock, else the previous bound. -/
def nextBound (t : Nat) (op : Op) : Nat :=
  match opTime op with
  | some now => now
  | none => t

theorem timestamps_inv_step (s : Store) (t : Nat) (op : Op)
    (hop : ∀ now, opTime op = some now → t ≤ now)
    (hinv : ∀ kv ∈ s, kv.2.created_at ≤ kv.2.updated_at ∧ kv.2.updated_at ≤ t) :
    ∀ kv ∈ step s op,
      kv.2.created_at ≤ kv.2.updated_at ∧ kv.2.updated_at ≤ nextBound t op := by
  intro kv hkv
  cases op with
  | createOp now note_id payload =>
    have hnow : t ≤ now := hop now rfl
    rw [show step s (Op.createOp now note_id payload) =
        storeSet s note_id
          { id := note_id, title := payload.title, content := payload.content,
            tags := payload.tags, created_at := now, updated_at := now } from rfl] at hkv
    rcases mem_of_mem_storeSet _ _ _ kv hkv with h | h
    · subst h
      simp [nextBound, opTime]
    · obtain ⟨h1, h2⟩ := hinv kv h
      exact ⟨h1, by simpa [nextBound, opTime] using le_trans h2 hnow⟩
  | updateOp now note_id payload =>
    have hnow : t ≤ now := hop now rfl
    rw [show step s (Op.updateOp now note_id payload) =
        (update_note s now note_id payload).1 from rfl] at hkv
    cases hg : storeGet s note_id with
    | none =>
      rw [show (update_note s now note_id payload).1 = s from by
        simp [update_note, hg]] at hkv
      obtain ⟨h1, h2⟩ := hinv kv hkv
      exact ⟨h1, by simpa [nextBound, opTime] using le_trans h2 hnow⟩
    | some existing =>
      have hex := hinv (note_id, existing) (mem_of_storeGet_eq_some s note_id existing hg)
      rw [show (update_note s now note_id payload).1 =
          storeSet s note_id
            { existing with
                title := match payload.title with | some x => x | none => existing.title
                content := match payload.content with | some x => x | none => existing.content
                tags := match payload.tags with | some x => some x | none => existing.tags
                updated_at := now } from by simp [update_note, hg]] at hkv
      rcases mem_of_mem_storeSet _ _ _ kv hkv with h | h
      · subst h
        refine ⟨?_, by simp [nextBound, opTime]⟩
        simpa using le_trans hex.1 (le_trans hex.2 hnow)
      · obtain ⟨h1, h2⟩ := hinv kv h
        exact ⟨h1, by simpa [nextBound, opTime] using le_trans h2 hnow⟩
  | deleteOp note_id =>
    rw [show step s (Op.deleteOp note_id) = (delete_note s note_id).1 from rfl] at hkv
    have hmem : kv ∈ s := by
      cases hg : storeGet s note_id with
      | none =>
        rw [show (delete_note s note_id).1 = s from by simp [delete_note, hg]] at hkv
        exact hkv
      | some v =>
        rw [show (delete_note s note_id).1 = storePop s note_id from by
          simp [delete_note, hg]] at hkv
        exact mem_of_mem_storePop s note_id kv hkv
    obtain ⟨h1, h2⟩ := hinv kv hmem
    exact ⟨h1, by simpa [nextBound, opTime] using h2⟩
  | getOp note_id =>
    obtain ⟨h1, h2⟩ := hinv kv hkv
    exact ⟨h1, by simpa [nextBound, opTime] using h2⟩
  | listOp =>
    obtain ⟨h1, h2⟩ := hinv kv hkv
    exact ⟨h1, by simpa [nextBound, opTime] using h2⟩

theorem timestamps_inv_run (ops : List Op) (s : Store) (t : Nat)
    (hc : chronOK t ops = true)
    (hinv : ∀ kv ∈ s, kv.2.created_at ≤ kv.2.updated_at ∧ kv.2.updated_at ≤ t) :
    ∀ kv ∈ run s ops, kv.2.created_at ≤ kv.2.updated_at := by
  induction ops generalizing s t with
  | nil =>
    intro kv hkv
    exact (hinv kv hkv).1
  | cons op rest ih =>
    have hrun : run s (op :: rest) = run (step s op) rest := rfl
    rw [hrun]
    cases hot : opTime op with
    | none =>
      have hc2 : chronOK t rest = true := by
        rw [chronOK, hot] at hc
        exact hc
      have hstep := timestamps_inv_step s t op (by simp [hot]) hinv
      rw [show nextBound t op = t from by simp [nextBound, hot]] at hstep
      exact ih (step s op) t hc2 hstep
    | some now =>
      rw [chronOK, hot, Bool.and_eq_true, decide_eq_true_eq] at hc
      have hstep := timestamps_inv_step s t op
        (by intro m hm; rw [hot] at hm; cases hm; exact hc.1) hinv
      rw [show nextBound t op = now from by simp [nextBound, hot]] at hstep
      exact ih (step s op) now hc.2 hstep

/-- C6: in every repository state reachable from the fresh empty store
by any sequence of the five operations whose clock readings are
nondecreasing, every stored note satisfies `updated_at ≥ created_at`:
`create_note` sets both timestamps to the same instant, `update_note`
keeps `created_at` and refreshes `updated_at` to a no-earlier instant,
and the other operations do not change any note. -/
theorem updated_at_ge_created_at_invariant (ops : List Op) (t0 : Nat)
    (hc : chronOK t0 ops = true) :
    ∀ kv ∈ run initStore ops, kv.2.created_at ≤ kv.2.updated_at :=
  timestamps_inv_run ops initStore t0 hc (by simp [initStore])

/-- C6 witness: a concrete chronological trace of a create followed by
an update. -/
theorem updated_at_ge_created_at_invariant_witness :
    chronOK 0 [Op.createOp 5 "a" ⟨"t", "c", none⟩,
      Op.updateOp 7 "a" ⟨some "X", none, none⟩] = true ∧
    ∀ kv ∈ run initStore [Op.createOp 5 "a" ⟨"t", "c", none⟩,
        Op.updateOp 7 "a" ⟨some "X", none, none⟩],
      kv.2.created_at ≤ kv.2.updated_at :=
  ⟨by decide,
    updated_at_ge_created_at_invariant
      [Op.createOp 5 "a" ⟨"t", "c", none⟩,
        Op.updateOp 7 "a" ⟨some "X", none, none⟩] 0 (by decide)⟩

theorem key_consistent_step (s : Store) (op : Op)
    (hnd : (storeKeys s).Nodup) (hkc : ∀ kv ∈ s, kv.2.id = kv.1) :
    (storeKeys (step s op)).Nodup ∧ ∀ kv ∈ step s op, kv.2.id = kv.1 := by
  cases op with
  | createOp now note_id payload =>
    rw [show step s (Op.createOp now note_id payload) =
        storeSet s note_id
          { id := note_id, title := payload.title, content := payload.content,
            tags := payload.tags, created_at := now, updated_at := now } from rfl]
    refine ⟨nodup_keys_storeSet s note_id _ hnd, ?_⟩
    intro kv hkv
    rcases mem_of_mem_storeSet _ _ _ kv hkv with h | h
    · subst h
      rfl
    · exact hkc kv h
  | updateOp now note_id payload =>
    rw [show step s (Op.updateOp now note_id payload) =
        (update_note s now note_id payload).1 from rfl]
    cases hg : storeGet s note_id with
    | none =>
      rw [show (update_note s now note_id payload).1 = s from by
        simp [update_note, hg]]
      exact ⟨hnd, hkc⟩
    | some existing =>
      have hid : existing.id = note_id :=
        hkc (note_id, existing) (mem_of_storeGet_eq_some s note_id existing hg)
      rw [show (update_note s now note_id payload).1 =
          storeSet s note_id
            { existing with
                title := match payload.title with | some x => x | none => existing.title
                content := match payload.content with | some x => x | none => existing.content
                tags := match payload.tags with | some x => some x | none => existing.tags
                updated_at := now } from by simp [update_note, hg]]
      refine ⟨nodup_keys_storeSet s note_id _ hnd, ?_⟩
      intro kv hkv
      rcases mem_of_mem_storeSet _ _ _ kv hkv with h | h
      · subst h
        simpa using hid
      · exact hkc kv h
  | deleteOp note_id =>
    rw [show step s (Op.deleteOp note_id) = (delete_note s note_id).1 from rfl]
    cases hg : storeGet s note_id with
    | none =>
      rw [show (delete_note s note_id).1 = s from by simp [delete_note, hg]]
      exact ⟨hnd, hkc⟩
    | some v =>
      rw [show (delete_note s note_id).1 = storePop s note_id from by
        simp [delete_note, hg]]
      exact ⟨nodup_keys_storePop s note_id hnd,
        fun kv hkv => hkc kv (mem_of_mem_storePop s note_id kv hkv)⟩
  | getOp note_id => exact ⟨hnd, hkc⟩
  | listOp => exact ⟨hnd, hkc⟩

theorem key_consistent_run (ops : List Op) (s : Store)
    (hnd : (storeKeys s).Nodup) (hkc : ∀ kv ∈ s, kv.2.id = kv.1) :
    (storeKeys (run s ops)).Nodup ∧ ∀ kv ∈ run s ops, kv.2.id = kv.1 := by
  induction ops generalizing s with
  | nil => exact ⟨hnd, hkc⟩
  | cons op rest ih =>
    have hstep := key_consistent_step s op hnd hkc
    exact ih (step s op) hstep.1 hstep.2

/-- C10: in every repository state reachable from the fresh empty store
by any sequence of the five operations, the backing map is
key-consistent: the keys are pairwise distinct, every stored note's
`id` equals its key, hence the stored notes' ids are pairwise distinct
and `get_note` at a stored note's id finds exactly that note. -/
theorem store_key_consistent (ops : List Op) :
    (storeKeys (run initStore ops)).Nodup ∧
    (∀ kv ∈ run initStore ops, kv.2.id = kv.1) ∧
    ((run initStore ops).map (fun kv => kv.2.id)).Nodup ∧
    (∀ kv ∈ run initStore ops,
      get_note (run initStore ops) kv.2.id = some kv.2) := by
  obtain ⟨hnd, hkc⟩ := key_consistent_run ops initStore (by simp [initStore, storeKeys])
    (by simp [initStore])
  refine ⟨hnd, hkc, ?_, ?_⟩
  · rw [List.map_congr_left fun kv hkv => hkc kv hkv]
    exact hnd
  · intro kv hkv
    rw [get_note, hkc kv hkv]
    exact storeGet_of_mem_nodup (run initStore ops) kv hnd hkv

end NoteKeeper
